import Mathlib

/-!
# Verification development for `pkg/flow/logging/logger.go` and `pkg/flow/module.go`

The Go code is embedded shallowly:

* pointers and interface values that may be `nil` are `Option`s of an identity;
* a Go call that may end in a run-time panic returns `Ended _`;
* Go's `(value, error)` result pairs are kept as pairs of `Option`s;
* collaborators whose code lives in other packages (the go-kit logger
  constructors, the flow engine, the River parser) are either symbolic
  constructors of a data type or parameters collected in a structure.

Locks are not modelled: every function below is the sequential behaviour of
the Go function between taking and releasing its lock.
-/

set_option autoImplicit false

/-- A Go run-time panic. -/
inductive GoPanic where
  /-- The run-time error "invalid memory address or nil pointer dereference". -/
  | nilDereference
  deriving DecidableEq, Repr

/-- How a call of a Go function ended: it returned `v`, or it panicked. -/
inductive Ended (α : Type) where
  | returned (v : α)
  | panicked (p : GoPanic)
  deriving DecidableEq, Repr

/-- A Go `error` value built by `fmt.Errorf(format, args...)`: the format
string and the arguments are kept apart, the message is not rendered. -/
structure GoError where
  format : String
  args : List String
  deriving DecidableEq, Repr

/-- Go's `fmt.Errorf`. -/
def Errorf (format : String) (args : List String) : GoError :=
  { format := format, args := args }

/-! ## Package `github.com/go-kit/log` (symbolic) -/

namespace log

/-- Identity of an `io.Writer`. -/
abbrev Writer := Nat

/-- The four level values of `github.com/go-kit/log/level`. -/
inductive LevelValue where
  | debug | info | warn | error
  deriving DecidableEq, Repr

/-- A `level.Option` as `level.NewFilter` sees it: the set of level values the
filter lets through. -/
structure LevelOption where
  allowed : List LevelValue
  deriving DecidableEq, Repr

/-- A `log.Valuer`: a value computed when a record is logged. -/
inductive Valuer where
  /-- `log.DefaultTimestampUTC`: the current time, in UTC. -/
  | DefaultTimestampUTC
  deriving DecidableEq, Repr

/-- One element of the `keyvals ...interface{}` of a log call. -/
inductive Val where
  | str (s : String)
  /-- A level value, as produced by `level.DebugValue()` and its siblings. -/
  | level (v : LevelValue)
  /-- An unbound `log.Valuer`. -/
  | valuer (v : Valuer)
  /-- A UTC timestamp, the result of binding `DefaultTimestampUTC` at clock reading `t`. -/
  | timeUTC (t : Nat)
  /-- The placeholder `log.ErrMissingValue`. -/
  | ErrMissingValue
  deriving DecidableEq, Repr

/-- The result of `log.NewSyncWriter(w)`: writes to `w`, one at a time. -/
structure SyncWriter where
  w : Writer
  deriving DecidableEq, Repr

/-- Go's `log.NewSyncWriter`. -/
def NewSyncWriter (w : Writer) : SyncWriter := { w := w }

/-- A go-kit `log.Logger` value, described by how it was built. -/
inductive Logger where
  /-- `log.NewLogfmtLogger(w)`. -/
  | logfmt (w : SyncWriter)
  /-- `log.NewJSONLogger(w)`. -/
  | json (w : SyncWriter)
  /-- `level.NewFilter(next, opt)`. -/
  | filter (next : Logger) (opt : LevelOption)
  /-- `log.With(logger, keyvals...)`. -/
  | context (logger : Logger) (keyvals : List Val)
  deriving DecidableEq, Repr

/-- Go's `log.NewLogfmtLogger`. -/
def NewLogfmtLogger (w : SyncWriter) : Logger := .logfmt w

/-- Go's `log.NewJSONLogger`. -/
def NewJSONLogger (w : SyncWriter) : Logger := .json w

/-- Go's `level.NewFilter` with one option. -/
def NewFilter (next : Logger) (opt : LevelOption) : Logger := .filter next opt

/-- Go's `log.With` with one key and one value. -/
def With (logger : Logger) (key : Val) (value : Val) : Logger :=
  .context logger [key, value]

/-- The two encodings a record can be written in. -/
inductive Encoding where
  | logfmt | json
  deriving DecidableEq, Repr

/-- What an encoder makes of a key/value sequence: the bytes of one record,
or an error. -/
inductive Encoded where
  | bytes (p : String)
  | failed (err : GoError)
  deriving DecidableEq, Repr

/-- The collaborators of the go-kit loggers whose behaviour is not fixed
here: the encoders (go-logfmt for logfmt, `encoding/json` for json), which
may reject a key/value sequence, and the `Write` method of the writers,
which may return an error. -/
structure Backends where
  encode : Encoding → List Val → Encoded
  write : Writer → String → Option GoError

/-- One `Write(p)` call made on the writer `w`. -/
structure Record where
  w : Writer
  p : String
  deriving DecidableEq, Repr

/-- The result of one `Log` call of a go-kit logger: the `Write` calls made,
in order, and the error returned. -/
structure LogResult where
  written : List Record
  err : Option GoError
  deriving DecidableEq, Repr

/-- Go-kit's `bindValues`: every `Valuer` in a value position (odd index) is
replaced by its value at clock reading `now`. -/
def bindValues (now : Nat) : List Val → List Val
  | k :: .valuer .DefaultTimestampUTC :: rest => k :: .timeUTC now :: bindValues now rest
  | k :: v :: rest => k :: v :: bindValues now rest
  | rest => rest

/-- The first level value found in a value position (odd index) of `keyvals`,
as the loop of the level filter finds it. -/
def firstLevel : List Val → Option LevelValue
  | _ :: .level v :: _ => some v
  | _ :: _ :: rest => firstLevel rest
  | _ => none

/-- The `Log` method of the logfmt and of the JSON logger: the key/values are
encoded; when the encoder fails its error is returned and nothing is written;
otherwise the record is written with one `Write` call, whose error is
returned. -/
def encodeAndWrite (be : Backends) (enc : Encoding) (sw : SyncWriter) (keyvals : List Val) :
    LogResult :=
  match be.encode enc keyvals with
  | .failed err => { written := [], err := some err }
  | .bytes p => { written := [{ w := sw.w, p := p }], err := be.write sw.w p }

/-- One `Log(keyvals...)` call of a go-kit logger at clock reading `now`. The
level filter drops a record whose first level value is not allowed (it
returns nil and calls nothing) and lets a record without level value
through; a context prepends its key/values, pads an odd sequence with
`ErrMissingValue`, binds the valuers of its own part and returns what the
wrapped logger returns. -/
def Logger.Log (be : Backends) (now : Nat) : Logger → List Val → LogResult
  | .logfmt sw, keyvals => encodeAndWrite be .logfmt sw keyvals
  | .json sw, keyvals => encodeAndWrite be .json sw keyvals
  | .filter next opt, keyvals =>
    match firstLevel keyvals with
    | some v =>
      if v ∈ opt.allowed then Logger.Log be now next keyvals
      else { written := [], err := none }
    | none => Logger.Log be now next keyvals
  | .context logger ctx, keyvals =>
    let kvs := ctx ++ keyvals
    let kvs := if kvs.length % 2 ≠ 0 then kvs ++ [.ErrMissingValue] else kvs
    Logger.Log be now logger (bindValues now (kvs.take ctx.length) ++ kvs.drop ctx.length)

/-- Whether the empty string is a key (even index) of a key/value sequence. -/
def hasEmptyKey : List Val → Bool
  | [] => false
  | [k] => decide (k = .str "")
  | k :: _ :: rest => decide (k = .str "") || hasEmptyKey rest

/-- An example rendering of a value as text. -/
def Val.text : Val → String
  | .str s => s
  | .level .debug => "debug"
  | .level .info => "info"
  | .level .warn => "warn"
  | .level .error => "error"
  | .valuer _ => "valuer"
  | .timeUTC _ => "time"
  | .ErrMissingValue => "(MISSING)"

/-- Example collaborators. The logfmt encoder rejects a sequence that has the
empty string as a key, with the error `invalid key` that go-logfmt returns
for such a key, and otherwise renders the values separated by blanks; the
JSON encoder renders them separated by commas; every write succeeds. -/
def exampleBackends : Backends :=
  { encode := fun enc kvs =>
      match enc with
      | .logfmt =>
        if hasEmptyKey kvs then .failed (Errorf "invalid key" [])
        else .bytes (" ".intercalate (kvs.map Val.text))
      | .json => .bytes (",".intercalate (kvs.map Val.text))
    write := fun _ _ => none }

end log

/-! ## Package `pkg/flow/logging` -/

namespace logging

/-- The string type `Format` of the options. -/
abbrev Format := String

/-- Modelled from the spec: the constant `FormatLogfmt` is declared in a file
of the package that is missing; the spec names the format `logfmt`. -/
def FormatLogfmt : Format := "logfmt"

/-- Modelled from the spec: the constant `FormatJSON` is declared in a file of
the package that is missing; the spec names the format `json`. -/
def FormatJSON : Format := "json"

/-- Modelled from the spec: the type `Level` is declared in a file of the
package that is missing; the spec calls it a filter threshold. Its method
`Filter()` yields the `level.Option` handed to `level.NewFilter`; the model
keeps that option as the field `Filter`. -/
structure Level where
  name : String
  Filter : log.LevelOption
  deriving DecidableEq, Repr

/-- Modelled from the spec: the type `Options` is declared in a file of the
package that is missing; `logger.go` reads its fields `Format` and `Level`. -/
structure Options where
  Level : Level
  Format : Format
  deriving DecidableEq, Repr

/-- The struct `Logger` of `logger.go` (its `mut` field is not modelled). -/
structure Logger where
  w : log.Writer
  l : Option log.Logger
  deriving DecidableEq, Repr

/-- The function `buildLogger` of `logger.go`. -/
def buildLogger (w : log.Writer) (o : Options) : Option log.Logger × Option GoError :=
  let sel : Option log.Logger :=
    if o.Format = FormatLogfmt then
      some (log.NewLogfmtLogger (log.NewSyncWriter w))
    else if o.Format = FormatJSON then
      some (log.NewJSONLogger (log.NewSyncWriter w))
    else
      none
  match sel with
  | none => (none, some (Errorf "unrecognized log format %q" [o.Format]))
  | some l =>
    let l := log.NewFilter l o.Level.Filter
    let l := log.With l (.str "ts") (.valuer .DefaultTimestampUTC)
    (some l, none)

/-- The function `New` of `logger.go`. -/
def New (w : log.Writer) (o : Options) : Option Logger × Option GoError :=
  match buildLogger w o with
  | (_, some err) => (none, some err)
  | (inner, none) => (some { w := w, l := inner }, none)

/-- The method `Logger.Log` of `logger.go`: the call is forwarded to the
current backend and what it returns is returned; calling a method of a nil
interface value panics. -/
def Logger.Log (be : log.Backends) (now : Nat) (l : Logger) (kvps : List log.Val) :
    Ended log.LogResult :=
  match l.l with
  | none => .panicked .nilDereference
  | some inner => .returned (inner.Log be now kvps)

/-- The method `Logger.Update` of `logger.go`: the logger after the call and
the returned error. -/
def Logger.Update (l : Logger) (o : Options) : Logger × Option GoError :=
  match buildLogger l.w o with
  | (_, some err) => (l, some err)
  | (newLogger, none) => ({ l with l := newLogger }, none)

/-- The encoding that belongs to a recognised format. -/
def encodingOf (f : Format) : log.Encoding :=
  if f = FormatLogfmt then .logfmt else .json

/-- An example level: the threshold `info`, whose filter allows info, warn and error. -/
def exampleLevel : Level :=
  { name := "info", Filter := { allowed := [.info, .warn, .error] } }

/-- An example of options with the logfmt format. -/
def exampleLogfmt : Options := { Level := exampleLevel, Format := FormatLogfmt }

/-- An example of options with the json format. -/
def exampleJSON : Options := { Level := exampleLevel, Format := FormatJSON }

/-- An example of options with an unrecognised format. -/
def exampleXML : Options := { Level := exampleLevel, Format := "xml" }

/-- An example logger: what `New` builds for writer 7 and `exampleLogfmt`. -/
def exampleLogger : Logger :=
  { w := 7
    l := some (log.With (log.NewFilter (log.NewLogfmtLogger (log.NewSyncWriter 7))
          exampleLevel.Filter) (.str "ts") (.valuer .DefaultTimestampUTC)) }

end logging

/-! ## Go's standard package `path` -/

namespace path

/-- The byte `path[i]` of the rest of the input, when there is one. -/
def byteAt (rest : List Char) (i : Nat) : Option Char := rest.get? i

/-- The inner loop of the `..` case of `path.Clean`:
`for out.w > dotdot && out.index(out.w) != '/' { out.w-- }`, started at
write index `w`; the result is the final write index. -/
def backtrack (out : List Char) (dotdot : Nat) : Nat → Nat
  | 0 => 0
  | w + 1 =>
    if w + 1 > dotdot ∧ out.getD (w + 1) '/' ≠ '/' then backtrack out dotdot w else w + 1

/-- The main loop of Go's `path.Clean`. `rest` is `path[r:]`, `out` is the
written part of the output buffer (its length is `out.w`), `dotdot` is the
index where `..` must stop. Every round consumes at least one byte of
`rest`; the first argument bounds the number of rounds. -/
def cleanLoop (rooted : Bool) : Nat → List Char → List Char → Nat → List Char
  | 0, _, out, _ => out
  | fuel + 1, rest, out, dotdot =>
    if rest = [] then out
    else if byteAt rest 0 = some '/' then
      -- empty path element
      cleanLoop rooted fuel (rest.drop 1) out dotdot
    else if byteAt rest 0 = some '.' ∧ (rest.length = 1 ∨ byteAt rest 1 = some '/') then
      -- . element
      cleanLoop rooted fuel (rest.drop 1) out dotdot
    else if byteAt rest 0 = some '.' ∧ byteAt rest 1 = some '.' ∧
        (rest.length = 2 ∨ byteAt rest 2 = some '/') then
      -- .. element: remove to last /
      if out.length > dotdot then
        -- can backtrack
        cleanLoop rooted fuel (rest.drop 2)
          (out.take (backtrack out dotdot (out.length - 1))) dotdot
      else if ¬ rooted then
        -- cannot backtrack, but not rooted, so append .. element
        let out1 := if out.length > 0 then out ++ ['/'] else out
        let out2 := out1 ++ ['.', '.']
        cleanLoop rooted fuel (rest.drop 2) out2 out2.length
      else
        cleanLoop rooted fuel (rest.drop 2) out dotdot
    else
      -- real path element: add slash if needed, copy element
      let out1 :=
        if (rooted ∧ out.length ≠ 1) ∨ (¬ rooted ∧ out.length ≠ 0) then out ++ ['/'] else out
      cleanLoop rooted fuel (rest.dropWhile (· ≠ '/')) (out1 ++ rest.takeWhile (· ≠ '/')) dotdot

/-- Go's `path.Clean`, on the characters of the path. (Go works on bytes; only
`/` and `.` are inspected, and neither occurs inside a multi-byte character.) -/
def Clean (path : List Char) : List Char :=
  if path = [] then ['.']
  else
    let rooted : Bool := byteAt path 0 = some '/'
    let out :=
      if rooted then cleanLoop rooted path.length (path.drop 1) ['/'] 1
      else cleanLoop rooted path.length path [] 0
    -- Turn empty string into "."
    if out.length = 0 then ['.'] else out

/-- The loop of Go's `path.Join` that fills `buf`. -/
def joinBuf (buf : List Char) : List (List Char) → List Char
  | [] => buf
  | e :: elem =>
    if buf.length > 0 ∨ e ≠ [] then
      let buf1 := if buf.length > 0 then buf ++ ['/'] else buf
      joinBuf (buf1 ++ e) elem
    else joinBuf buf elem

/-- Go's `path.Join`. -/
def Join (elem : List (List Char)) : List Char :=
  let size := (elem.map List.length).sum
  if size = 0 then []
  else Clean (joinBuf [] elem)

/-- A clean path element: not empty, without slash, neither `.` nor `..`. -/
def isSegment (s : List Char) : Bool :=
  decide (s ≠ []) && decide ('/' ∉ s) && decide (s ≠ ['.']) && decide (s ≠ ['.', '.'])

/-- The rooted path `/s1/s2/.../sk` of the elements `s1, ..., sk`; the empty
path for no element. -/
def rootedOf : List (List Char) → List Char
  | [] => []
  | s :: rest => '/' :: s ++ rootedOf rest

/-- A rest of the input at which a path element ends: the end of the input,
or a slash. -/
def atBoundary (x : List Char) : Prop := x = [] ∨ ∃ t, x = '/' :: t

end path

/-! ## Package `pkg/flow`: the module controller -/

namespace flow

/-- Identity of a `trace.TracerProvider`. -/
abbrev TracerProvider := Nat
/-- Identity of a `*cluster.Clusterer`. -/
abbrev Clusterer := Nat
/-- Identity of a `prometheus.Registerer`. -/
abbrev Registerer := Nat
/-- Identity of a `component.ExportFunc`. -/
abbrev ExportFunc := Nat
/-- Identity of a `*logging.Logger`. -/
abbrev LoggerRef := Nat
/-- A parsed River file, the `*File` that `ReadFile` returns. -/
abbrev File := Nat
/-- The `map[string]any` of module arguments. -/
abbrev Args := List (String × Nat)

/-- The struct `moduleControllerOptions` of `module.go`. -/
structure moduleControllerOptions where
  Logger : Option LoggerRef
  Tracer : Option TracerProvider
  Clusterer : Option Clusterer
  Reg : Option Registerer
  DataPath : String
  HTTPListenAddr : String
  HTTPPath : String
  deriving DecidableEq, Repr

/-- The struct `moduleOptions` of `module.go`; the embedded
`*moduleControllerOptions` is the field `ctl` (taken to be non-nil). -/
structure moduleOptions where
  ID : String
  exportFunc : ExportFunc
  ctl : moduleControllerOptions
  deriving DecidableEq, Repr

/-- A function value passed as `OnExportsChange`. -/
inductive ExportsCallback where
  /-- The closure `func(exports map[string]any) { c.o.export(exports) }`
  of `LoadConfig`, for the module whose `c.o.export` is `target`. -/
  | callExport (target : ExportFunc)
  deriving DecidableEq, Repr

/-- The fields of the engine's `Options` that the literal in `LoadConfig`
sets (the declaration of the type is in a file that is missing). -/
structure Options where
  ControllerID : String
  Tracer : Option TracerProvider
  Clusterer : Option Clusterer
  Reg : Option Registerer
  DataPath : String
  HTTPPathPrefix : String
  HTTPListenAddr : String
  OnExportsChange : ExportsCallback
  deriving DecidableEq, Repr

/-- The contents of an engine (`Flow`) object: the field `clusterer` that
`module.go` reads, and the rest of the engine's state, which is not
interpreted. -/
structure FlowState where
  clusterer : Option Clusterer
  state : Nat
  deriving DecidableEq, Repr

/-- A non-nil `*Flow`: the address of the object (its identity) and the
object's current contents. -/
structure Flow where
  addr : Nat
  st : FlowState
  deriving DecidableEq, Repr

/-- The collaborators of `module.go` whose code is elsewhere: the engine's
constructor `New` (the contents of the object it builds), the engine's
`LoadFile` (new contents and returned error) and the parser `ReadFile`. -/
structure Env where
  New : Options → FlowState
  LoadFile : FlowState → Option File → Args → FlowState × Option GoError
  ReadFile : String → List Nat → Option File × Option GoError

/-- A call of a collaborator, as recorded in the world. -/
inductive Call where
  | New (o : Options) (addr : Nat)
  | ReadFile (id : String) (config : List Nat)
  | LoadFile (addr : Nat) (ff : Option File) (args : Args)
  deriving DecidableEq, Repr

/-- What lies outside the module: the next free address for an engine object
and the collaborator calls made so far, oldest first. -/
structure World where
  nextAddr : Nat
  calls : List Call
  deriving DecidableEq, Repr

/-- The struct `module` of `module.go` (its `mut` field is not modelled; the
pointer `o` is taken to be non-nil). -/
structure module where
  f : Option Flow
  o : moduleOptions
  deriving DecidableEq, Repr

/-- The function `newModule` of `module.go`. -/
def newModule (o : moduleOptions) : module :=
  { f := none, o := o }

/-- The field selector `f.clusterer` on a `*Flow`: selecting a field through a
nil pointer panics. -/
def Flow.clusterer (f : Option Flow) : Ended (Option Clusterer) :=
  match f with
  | none => .panicked .nilDereference
  | some fl => .returned fl.st.clusterer

/-- The `Options` literal of `LoadConfig` (lines 46 to 57), given the value
`cl` that the field expression `c.f.clusterer` yields. -/
def engineOptions (c : module) (cl : Option Clusterer) : Options :=
  { ControllerID := c.o.ID
    Tracer := none
    Clusterer := cl
    Reg := c.o.ctl.Reg
    DataPath := c.o.ctl.DataPath
    HTTPPathPrefix := c.o.ctl.HTTPPath
    HTTPListenAddr := c.o.ctl.HTTPListenAddr
    OnExportsChange := .callExport c.o.exportFunc }

/-- The engine constructor `New(o)`, run in a world: a fresh object is
allocated and the call is recorded. -/
def New (env : Env) (o : Options) (w : World) : Flow × World :=
  ({ addr := w.nextAddr, st := env.New o },
   { nextAddr := w.nextAddr + 1, calls := w.calls ++ [.New o w.nextAddr] })

/-- The result of running `LoadConfig`: how the call ended, the module and
the world afterwards. -/
structure Outcome where
  result : Ended (Option GoError)
  c : module
  w : World
  deriving DecidableEq, Repr

/-- The `if c.f == nil { ... }` block of `LoadConfig` (lines 45 to 59). -/
def constructIfNil (env : Env) (c : module) (w : World) : Ended (module × World) :=
  if c.f = none then
    match Flow.clusterer c.f with
    | .panicked p => .panicked p
    | .returned cl =>
      let (f, w1) := New env (engineOptions c cl) w
      .returned ({ c with f := some f }, w1)
  else .returned (c, w)

/-- The method `module.LoadConfig` of `module.go`. -/
def LoadConfig (env : Env) (c : module) (config : List Nat) (args : Args) (w : World) :
    Outcome :=
  match constructIfNil env c w with
  | .panicked p => { result := .panicked p, c := c, w := w }
  | .returned (c1, w1) =>
    let w2 : World := { w1 with calls := w1.calls ++ [.ReadFile c1.o.ID config] }
    match env.ReadFile c1.o.ID config with
    | (_, some err) => { result := .returned (some err), c := c1, w := w2 }
    | (ff, none) =>
      match c1.f with
      | none => { result := .panicked .nilDereference, c := c1, w := w2 }
      | some fl =>
        let r := env.LoadFile fl.st ff args
        { result := .returned r.2
          c := { c1 with f := some { fl with st := r.1 } }
          w := { w2 with calls := w2.calls ++ [.LoadFile fl.addr ff args] } }

/-- A sequence of `LoadConfig` calls on one module, each started whatever the
end of the one before. -/
def LoadConfigs (env : Env) (c : module) (w : World) : List (List Nat × Args) → module × World
  | [] => (c, w)
  | (config, args) :: rest =>
    let r := LoadConfig env c config args w
    LoadConfigs env r.c r.w rest

/-- The number of engine constructions recorded in a list of calls. -/
def constructions (calls : List Call) : Nat :=
  (calls.filter (fun x => match x with | .New _ _ => true | _ => false)).length

/-- An HTTP request, reduced to `r.URL.Path`. -/
structure Request where
  Path : List Char
  deriving DecidableEq, Repr

/-- The route `PathPrefix("/{id}/")` of gorilla/mux: the path starts with a
slash, a non-empty segment without slash, and a slash. -/
def matchIDPrefix (p : List Char) : Bool :=
  match p with
  | '/' :: rest =>
    let id := rest.takeWhile (· ≠ '/')
    decide (id ≠ []) && decide ((rest.dropWhile (· ≠ '/')).head? = some '/')
  | _ => false

/-- The function `cleanPath` of gorilla/mux: the canonical form of a request
path (`path.Clean`, with a leading slash, and the slash at the end kept). -/
def cleanPath (p : List Char) : List Char :=
  if p = [] then ['/']
  else
    let p1 := if path.byteAt p 0 ≠ some '/' then '/' :: p else p
    let np := path.Clean p1
    -- path.Clean removes trailing slash except for root; put it back
    if p1.getLast? = some '/' ∧ np ≠ ['/'] then np ++ ['/'] else np

/-- What the router returned by `ComponentHandler` does with a request. -/
inductive Routed where
  /-- The router of gorilla/mux answers 301 (moved permanently) with the
  canonical path as location: no route is tried. -/
  | redirect (location : List Char)
  /-- A route registered by `fa.RegisterRoutes("/", r)` serves the request. -/
  | api (r : Request)
  /-- The call `c.f.ComponentHandler().ServeHTTP(w, r)` on the engine `f`. -/
  | component (f : Option Flow) (r : Request)
  /-- No route matches. -/
  | notFound
  deriving DecidableEq, Repr

/-- The handler function registered for `PathPrefix("/{id}/")` (lines 84 to
90): the path is rewritten and the request forwarded to the engine. -/
def forwardToComponent (c : module) (r : Request) : Routed :=
  .component c.f { r with Path := path.Join [c.o.ctl.HTTPPath.data, r.Path] }

/-- The method `module.ComponentHandler` of `module.go`, as the action of the
returned router on a request. The router is `mux.NewRouter()` with its
default settings: a request whose path is not in canonical form is answered
with a redirect before any route is tried. `apiRoute` tells whether one of
the routes that `web/api` registers first takes the request. -/
def ComponentHandler (apiRoute : Request → Bool) (c : module) (r : Request) : Routed :=
  if cleanPath r.Path ≠ r.Path then .redirect (cleanPath r.Path)
  else if apiRoute r then .api r
  else if matchIDPrefix r.Path then forwardToComponent c r
  else .notFound

/-- Example module options: every controller option is set. -/
def exampleModuleOptions : moduleOptions :=
  { ID := "mod"
    exportFunc := 5
    ctl :=
      { Logger := some 1, Tracer := some 2, Clusterer := some 3, Reg := some 4
        DataPath := "/data", HTTPListenAddr := "127.0.0.1:12345", HTTPPath := "/prefix" } }

/-- Example module options whose HTTP path is `/a`. -/
def exampleModuleOptionsA : moduleOptions :=
  { exampleModuleOptions with
    ctl := { exampleModuleOptions.ctl with HTTPPath := "/a" } }

/-- An example environment: the constructor stores the clusterer of its
options, the parser rejects the empty config and otherwise yields the length
of the config, and `LoadFile` stores the file and fails on file 1. -/
def exampleEnv : Env :=
  { New := fun o => { clusterer := o.Clusterer, state := 0 }
    LoadFile := fun st ff _ =>
      ({ st with state := ff.getD 0 },
       if ff = some 1 then some (Errorf "load failed" []) else none)
    ReadFile := fun _ config =>
      if config = [] then (none, some (Errorf "empty config" []))
      else (some config.length, none) }

/-- The example world: no engine object yet, no call made. -/
def exampleWorld : World := { nextAddr := 0, calls := [] }

/-- An example module that holds an engine object, at address 0. -/
def exampleLoaded : module :=
  { f := some { addr := 0, st := { clusterer := none, state := 0 } }
    o := exampleModuleOptions }

/-- An example module with HTTP path `/a` that holds an engine object. -/
def exampleLoadedA : module :=
  { f := some { addr := 0, st := { clusterer := none, state := 0 } }
    o := exampleModuleOptionsA }

/-- The case that no route of `web/api` matches. -/
def noAPIRoute : Request → Bool := fun _ => false

end flow

/-! # Theorems -/

/-! ## The logger -/

namespace logging
/-- Padding an odd key/value sequence with `ErrMissingValue` adds no level value. -/
theorem firstLevel_pad : ∀ (kvps : List log.Val), kvps.length % 2 ≠ 0 →
    log.firstLevel (kvps ++ [.ErrMissingValue]) = log.firstLevel kvps
  | [], h => by simp at h
  | [k], _ => by cases k <;> rfl
  | k :: v :: rest, h => by
    have h' : rest.length % 2 ≠ 0 := by
      simp only [List.length_cons] at h; omega
    have ih := firstLevel_pad rest h'
    cases v <;> simp [log.firstLevel, ih]

/-- What `buildLogger` returns for a recognised format. -/
theorem buildLogger_valid (w : log.Writer) (o : Options)
    (h : o.Format = FormatLogfmt ∨ o.Format = FormatJSON) :
    buildLogger w o =
      (some (log.With
        (log.NewFilter
          (if o.Format = FormatLogfmt then log.NewLogfmtLogger (log.NewSyncWriter w)
           else log.NewJSONLogger (log.NewSyncWriter w))
          o.Level.Filter)
        (.str "ts") (.valuer .DefaultTimestampUTC)), none) := by
  rcases h with h | h
  · simp [buildLogger, h]
  · have hne : FormatJSON ≠ FormatLogfmt := by decide
    simp [buildLogger, h, hne]

/-- What `buildLogger` returns for an unrecognised format. -/
theorem buildLogger_invalid (w : log.Writer) (o : Options)
    (h1 : o.Format ≠ FormatLogfmt) (h2 : o.Format ≠ FormatJSON) :
    buildLogger w o = (none, some (Errorf "unrecognized log format %q" [o.Format])) := by
  simp [buildLogger, h1, h2]

/-- C4: for every Logger and every Options whose format is neither logfmt nor
json, `Update` returns an error and leaves the backend and the writer of the
Logger as they were, so that every later `Log` is handled as before the call,
whatever the encoders and writers do. -/
theorem Update_invalid_format_keeps_backend (l : Logger) (o : Options)
    (h1 : o.Format ≠ FormatLogfmt) (h2 : o.Format ≠ FormatJSON) :
    (l.Update o).2 ≠ none ∧ (l.Update o).1.l = l.l ∧ (l.Update o).1.w = l.w ∧
      ∀ be now kvps, (l.Update o).1.Log be now kvps = l.Log be now kvps := by
  simp [Logger.Update, buildLogger_invalid l.w o h1 h2]

/-- C4 at the example logger and the format `xml`. -/
theorem Update_invalid_format_keeps_backend_witness :
    exampleXML.Format ≠ FormatLogfmt ∧ exampleXML.Format ≠ FormatJSON ∧
    (exampleLogger.Update exampleXML).2 ≠ none ∧
    (exampleLogger.Update exampleXML).1.l = exampleLogger.l ∧
    (exampleLogger.Update exampleXML).1.w = exampleLogger.w ∧
    ∀ be now kvps,
      (exampleLogger.Update exampleXML).1.Log be now kvps = exampleLogger.Log be now kvps :=
  ⟨by decide, by decide,
    Update_invalid_format_keeps_backend exampleLogger exampleXML (by decide) (by decide)⟩

/-- C5: for every writer and every Options, `New` returns an error exactly
when the format is neither logfmt nor json; with an error no Logger is
returned and the error carries the format value; without an error the
returned Logger has a backend (it is not nil) and holds the writer. -/
theorem New_error_iff_unrecognized_format (w : log.Writer) (o : Options) :
    ((New w o).2 ≠ none ↔ (o.Format ≠ FormatLogfmt ∧ o.Format ≠ FormatJSON)) ∧
    ((New w o).2 ≠ none →
      (New w o).1 = none ∧
      (New w o).2 = some (Errorf "unrecognized log format %q" [o.Format])) ∧
    ((New w o).2 = none → ∃ lg, (New w o).1 = some lg ∧ lg.l ≠ none ∧ lg.w = w) := by
  by_cases h : o.Format = FormatLogfmt ∨ o.Format = FormatJSON
  · have hb := buildLogger_valid w o h
    have hn : ¬ (o.Format ≠ FormatLogfmt ∧ o.Format ≠ FormatJSON) := by tauto
    simp [New, hb, hn]
  · push_neg at h
    have hb := buildLogger_invalid w o h.1 h.2
    simp [New, hb, h.1, h.2]

/-- C6: for every Logger and every Options with format logfmt or json,
`Update` returns no error, the backend afterwards is the one `buildLogger`
builds from the writer of the Logger and the new options (a backend, not
nil), and the writer is unchanged. -/
theorem Update_valid_format_installs_backend (l : Logger) (o : Options)
    (h : o.Format = FormatLogfmt ∨ o.Format = FormatJSON) :
    (l.Update o).2 = none ∧ (l.Update o).1.l = (buildLogger l.w o).1 ∧
      (l.Update o).1.l ≠ none ∧ (l.Update o).1.w = l.w := by
  simp [Logger.Update, buildLogger_valid l.w o h]

/-- C6 at the example logger and the json options. -/
theorem Update_valid_format_installs_backend_witness :
    (exampleJSON.Format = FormatLogfmt ∨ exampleJSON.Format = FormatJSON) ∧
    (exampleLogger.Update exampleJSON).2 = none ∧
    (exampleLogger.Update exampleJSON).1.l = (buildLogger exampleLogger.w exampleJSON).1 ∧
    (exampleLogger.Update exampleJSON).1.l ≠ none ∧
    (exampleLogger.Update exampleJSON).1.w = exampleLogger.w :=
  ⟨by decide, Update_valid_format_installs_backend exampleLogger exampleJSON (by decide)⟩

/-- What a context with the key `ts` and the UTC timestamp valuer hands to the
logger it wraps. -/
theorem Log_With_ts (be : log.Backends) (now : Nat) (lg : log.Logger) (kvps : List log.Val) :
    log.Logger.Log be now (log.With lg (.str "ts") (.valuer .DefaultTimestampUTC)) kvps =
      log.Logger.Log be now lg (.str "ts" :: .timeUTC now ::
        (kvps ++ (if kvps.length % 2 ≠ 0 then [.ErrMissingValue] else []))) := by
  by_cases hp : kvps.length % 2 ≠ 0
  · have hp2 : (kvps.length + 1 + 1) % 2 = 1 := by omega
    simp [log.With, log.Logger.Log, hp, hp2, log.bindValues]
  · have hp2 : ¬ (kvps.length + 1 + 1) % 2 = 1 := by omega
    simp [log.With, log.Logger.Log, hp, hp2, log.bindValues]

/-- A level filter over the encoder of a recognised format passes a sequence
without forbidden level value to that encoder. -/
theorem Log_NewFilter_allowed (be : log.Backends) (now : Nat) (w : log.Writer) (o : Options)
    (h : o.Format = FormatLogfmt ∨ o.Format = FormatJSON) (kvs : List log.Val)
    (hlev : ∀ v, log.firstLevel kvs = some v → v ∈ o.Level.Filter.allowed) :
    log.Logger.Log be now
      (log.NewFilter
        (if o.Format = FormatLogfmt then log.NewLogfmtLogger (log.NewSyncWriter w)
         else log.NewJSONLogger (log.NewSyncWriter w))
        o.Level.Filter) kvs =
      log.encodeAndWrite be (encodingOf o.Format) (log.NewSyncWriter w) kvs := by
  have hne : FormatJSON ≠ FormatLogfmt := by decide
  rcases h with h | h
  · cases hk : log.firstLevel kvs with
    | none => simp [log.NewFilter, log.Logger.Log, hk, h, log.NewLogfmtLogger, encodingOf]
    | some v => simp [log.NewFilter, log.Logger.Log, hk, hlev v hk, h,
        log.NewLogfmtLogger, encodingOf]
  · cases hk : log.firstLevel kvs with
    | none => simp [log.NewFilter, log.Logger.Log, hk, h, hne, log.NewJSONLogger, encodingOf]
    | some v => simp [log.NewFilter, log.Logger.Log, hk, hlev v hk, h, hne,
        log.NewJSONLogger, encodingOf]

/-- C9, refuted as stated: the Logger that `New` builds for writer 7 and the
logfmt options, asked to log the record with the empty key (`"" = x`, no level
value, so nothing the filter forbids), writes no record: the logfmt encoder
rejects the empty key and `Log` returns its error `invalid key`. -/
theorem New_then_Log_writes_nothing :
    (∀ v, log.firstLevel [.str "", .str "x"] = some v → v ∈ exampleLogfmt.Level.Filter.allowed) ∧
    log.exampleBackends.encode .logfmt [.str "ts", .timeUTC 42, .str "", .str "x"] =
      .failed (Errorf "invalid key" []) ∧
    ∃ lg, New 7 exampleLogfmt = (some lg, none) ∧
      Logger.Log log.exampleBackends 42 lg [.str "", .str "x"] =
        .returned { written := [], err := some (Errorf "invalid key" []) } := by
  refine ⟨by decide, by decide, ?_⟩
  exact ⟨exampleLogger, by decide, by decide⟩

/-- C9, amended: for every writer and every Options with format logfmt or
json, the backend that `buildLogger` builds, and that `New` installs, is the
encoder of that format over a synchronised wrapper of the writer, inside a
level filter for the level of the options, inside a context with the key `ts`
and the UTC timestamp valuer; one `Log` call on the new Logger with a record
whose level value, if it has one, is allowed by the filter hands the encoder
of that format one sequence: `ts`, the UTC time of the call, the key/values
of the caller, and `ErrMissingValue` when their number is odd. When the
encoder accepts the sequence, exactly one record, the encoded bytes, is
written to the writer and `Log` returns the error of that write; when the
encoder rejects it, nothing is written and `Log` returns the error of the
encoder. -/
theorem buildLogger_backend_and_Log (w : log.Writer) (o : Options)
    (h : o.Format = FormatLogfmt ∨ o.Format = FormatJSON) :
    let enc := if o.Format = FormatLogfmt then log.NewLogfmtLogger (log.NewSyncWriter w)
               else log.NewJSONLogger (log.NewSyncWriter w)
    let b := log.With (log.NewFilter enc o.Level.Filter) (.str "ts") (.valuer .DefaultTimestampUTC)
    buildLogger w o = (some b, none) ∧
    New w o = (some { w := w, l := some b }, none) ∧
    ∀ (be : log.Backends) (now : Nat) (kvps : List log.Val),
      (∀ v, log.firstLevel kvps = some v → v ∈ o.Level.Filter.allowed) →
      (∀ p, be.encode (encodingOf o.Format)
          ([.str "ts", .timeUTC now] ++ kvps ++
            (if kvps.length % 2 ≠ 0 then [.ErrMissingValue] else [])) = .bytes p →
        Logger.Log be now { w := w, l := some b } kvps =
          .returned { written := [{ w := w, p := p }], err := be.write w p }) ∧
      (∀ err, be.encode (encodingOf o.Format)
          ([.str "ts", .timeUTC now] ++ kvps ++
            (if kvps.length % 2 ≠ 0 then [.ErrMissingValue] else [])) = .failed err →
        Logger.Log be now { w := w, l := some b } kvps =
          .returned { written := [], err := some err }) := by
  intro enc b
  have hb := buildLogger_valid w o h
  refine ⟨hb, by simp [New, hb], ?_⟩
  intro be now kvps hlev
  have hfl : log.firstLevel (kvps ++ (if kvps.length % 2 ≠ 0 then [.ErrMissingValue] else []))
      = log.firstLevel kvps := by
    by_cases hp : kvps.length % 2 ≠ 0
    · rw [if_pos hp]; exact firstLevel_pad kvps hp
    · simp [hp]
  have hlev2 : ∀ v, log.firstLevel (.str "ts" :: .timeUTC now ::
      (kvps ++ (if kvps.length % 2 ≠ 0 then [.ErrMissingValue] else []))) = some v →
      v ∈ o.Level.Filter.allowed := by
    intro v hv
    apply hlev v
    rw [← hfl]
    simpa [log.firstLevel] using hv
  have hlog : Logger.Log be now { w := w, l := some b } kvps =
      .returned (log.encodeAndWrite be (encodingOf o.Format) (log.NewSyncWriter w)
        (.str "ts" :: .timeUTC now ::
          (kvps ++ (if kvps.length % 2 ≠ 0 then [.ErrMissingValue] else [])))) := by
    simp only [Logger.Log, b, enc]
    rw [Log_With_ts, Log_NewFilter_allowed be now w o h _ hlev2]
  constructor
  · intro p hp
    have hp' : be.encode (encodingOf o.Format) (.str "ts" :: .timeUTC now ::
        (kvps ++ (if kvps.length % 2 ≠ 0 then [.ErrMissingValue] else []))) = .bytes p := by
      simpa using hp
    rw [hlog]
    unfold log.encodeAndWrite
    rw [hp']
    rfl
  · intro err he
    have he' : be.encode (encodingOf o.Format) (.str "ts" :: .timeUTC now ::
        (kvps ++ (if kvps.length % 2 ≠ 0 then [.ErrMissingValue] else []))) = .failed err := by
      simpa using he
    rw [hlog]
    unfold log.encodeAndWrite
    rw [he']

/-- C9 at writer 7 and the json options: the record `msg=hi` logged at clock
reading 42 is written once, with the timestamp first, and no error is
returned. -/
theorem buildLogger_backend_and_Log_witness :
    (exampleJSON.Format = FormatLogfmt ∨ exampleJSON.Format = FormatJSON) ∧
    (∃ lg, New 7 exampleJSON = (some lg, none) ∧
      Logger.Log log.exampleBackends 42 lg [.str "msg", .str "hi"] =
        .returned { written := [{ w := 7, p := "ts,time,msg,hi" }], err := none }) :=
  ⟨by decide,
    ⟨_, (buildLogger_backend_and_Log 7 exampleJSON (by decide)).2.1,
      ((buildLogger_backend_and_Log 7 exampleJSON (by decide)).2.2 log.exampleBackends 42
        [.str "msg", .str "hi"] (by decide)).1 "ts,time,msg,hi" (by decide)⟩⟩

end logging

/-! ## Go's `path.Clean` and `path.Join` on clean rooted paths -/

namespace path
/-- A rooted path followed by an element boundary starts at an element boundary. -/
theorem atBoundary_rootedOf (segs : List (List Char)) (x : List Char) (hx : atBoundary x) :
    atBoundary (rootedOf segs ++ x) := by
  cases segs with
  | nil => simpa [rootedOf] using hx
  | cons s rest => exact Or.inr ⟨s ++ (rootedOf rest ++ x), by simp [rootedOf]⟩

/-- Copying an element without slash stops at the boundary after it. -/
theorem takeWhile_segment (s x : List Char) (hs : '/' ∉ s) (hx : atBoundary x) :
    (s ++ x).takeWhile (· ≠ '/') = s ∧ (s ++ x).dropWhile (· ≠ '/') = x := by
  induction s with
  | nil =>
    rcases hx with rfl | ⟨t, rfl⟩ <;> simp
  | cons a s ih =>
    have ha : a ≠ '/' := by
      intro h; exact hs (by simp [h])
    have hs' : '/' ∉ s := by
      intro h; exact hs (by simp [h])
    have := ih hs'
    simpa [List.takeWhile, List.dropWhile, ha] using this

/-- At the end of the input the loop returns the output. -/
theorem cleanLoop_nil (rooted : Bool) (fuel : Nat) (out : List Char) (dotdot : Nat) :
    cleanLoop rooted fuel [] out dotdot = out := by
  cases fuel <;> simp [cleanLoop]

/-- One round of the loop at a slash: the empty element is skipped. -/
theorem cleanLoop_slash (rooted : Bool) (fuel : Nat) (t out : List Char) (dotdot : Nat) :
    cleanLoop rooted (fuel + 1) ('/' :: t) out dotdot = cleanLoop rooted fuel t out dotdot := by
  simp [cleanLoop, byteAt]

/-- One round of the loop at a clean element of a rooted path: a slash is added
unless the output is the root slash alone, and the element is copied. -/
theorem cleanLoop_segment (fuel : Nat) (s x out : List Char) (dotdot : Nat)
    (hs : isSegment s = true) (hx : atBoundary x) :
    cleanLoop true (fuel + 1) (s ++ x) out dotdot =
      cleanLoop true fuel x ((if out.length ≠ 1 then out ++ ['/'] else out) ++ s) dotdot := by
  simp only [isSegment, Bool.and_eq_true, decide_eq_true_eq] at hs
  obtain ⟨⟨⟨hne, hsl⟩, hd⟩, hdd⟩ := hs
  obtain ⟨htw, hdw⟩ := takeWhile_segment s x hsl hx
  cases s with
  | nil => exact absurd rfl hne
  | cons a s =>
    have ha : a ≠ '/' := by intro h; exact hsl (by simp [h])
    have hnil : (a :: s ++ x) ≠ [] := by simp
    have h1 : ¬ (byteAt (a :: s ++ x) 0 = some '/') := by simp [byteAt, ha]
    have h2 : ¬ (byteAt (a :: s ++ x) 0 = some '.' ∧
        ((a :: s ++ x).length = 1 ∨ byteAt (a :: s ++ x) 1 = some '/')) := by
      rintro ⟨h0, h⟩
      have ha' : a = '.' := by simpa [byteAt] using h0
      cases s with
      | nil => exact hd (by simp [ha'])
      | cons b s =>
        rcases h with h | h
        · simp at h
        · have : b = '/' := by simpa [byteAt] using h
          exact hsl (by simp [this])
    have h3 : ¬ (byteAt (a :: s ++ x) 0 = some '.' ∧ byteAt (a :: s ++ x) 1 = some '.' ∧
        ((a :: s ++ x).length = 2 ∨ byteAt (a :: s ++ x) 2 = some '/')) := by
      rintro ⟨h0, h1', h⟩
      have ha' : a = '.' := by simpa [byteAt] using h0
      cases s with
      | nil =>
        rcases hx with rfl | ⟨t, rfl⟩
        · simp [byteAt] at h1'
        · simp [byteAt] at h1'
      | cons b s =>
        have hb : b = '.' := by simpa [byteAt] using h1'
        cases s with
        | nil => exact hdd (by simp [ha', hb])
        | cons d s =>
          rcases h with h | h
          · simp at h
          · have : d = '/' := by simpa [byteAt] using h
            exact hsl (by simp [this])
    rw [cleanLoop]
    rw [if_neg hnil, if_neg h1, if_neg h2, if_neg h3]
    simp only [htw, hdw]
    simp


/-- A rooted path of clean elements has at least two characters for each element. -/
theorem length_rootedOf (segs : List (List Char)) (h : segs.all isSegment = true) :
    2 * segs.length ≤ (rootedOf segs).length := by
  induction segs with
  | nil => simp
  | cons s rest ih =>
    simp only [List.all_cons, Bool.and_eq_true] at h
    have hs : s ≠ [] := by
      have := h.1
      simp only [isSegment, Bool.and_eq_true, decide_eq_true_eq] at this
      exact this.1.1.1
    have hl : 1 ≤ s.length := List.length_pos.mpr hs
    have := ih h.2
    simp only [rootedOf, List.length_cons, List.length_append]
    omega

/-- The loop copies a rooted path of clean elements to the output unchanged,
in two rounds for each element. -/
theorem cleanLoop_rootedOf (dotdot : Nat) :
    ∀ (segs : List (List Char)) (fuel : Nat) (x out : List Char),
      segs.all isSegment = true → atBoundary x → 2 ≤ out.length →
      cleanLoop true (fuel + 2 * segs.length) (rootedOf segs ++ x) out dotdot =
        cleanLoop true fuel x (out ++ rootedOf segs) dotdot
  | [], fuel, x, out, _, _, _ => by simp [rootedOf]
  | s :: rest, fuel, x, out, h, hx, hout => by
    simp only [List.all_cons, Bool.and_eq_true] at h
    have e1 : fuel + 2 * (s :: rest).length = (fuel + 2 * rest.length + 1) + 1 := by
      simp only [List.length_cons]; omega
    have e2 : rootedOf (s :: rest) ++ x = '/' :: (s ++ (rootedOf rest ++ x)) := by
      simp [rootedOf]
    rw [e1, e2, cleanLoop_slash,
      cleanLoop_segment _ s _ out dotdot h.1 (atBoundary_rootedOf rest x hx)]
    have hne : out.length ≠ 1 := by omega
    rw [if_pos hne]
    rw [cleanLoop_rootedOf dotdot rest fuel x _ h.2 hx (by simp; omega)]
    simp [rootedOf]

/-- The loop of a rooted path from its start: the first element is copied
right after the root slash, the others follow. -/
theorem cleanLoop_first (segs : List (List Char)) (s : List Char) (fuel : Nat) (x : List Char)
    (hs : isSegment s = true) (h : segs.all isSegment = true) (hx : atBoundary x) :
    cleanLoop true (fuel + 2 * segs.length + 1) (s ++ (rootedOf segs ++ x)) ['/'] 1 =
      cleanLoop true fuel x (rootedOf (s :: segs)) 1 := by
  have hne : s ≠ [] := by
    simp only [isSegment, Bool.and_eq_true, decide_eq_true_eq] at hs
    exact hs.1.1.1
  have hl : 1 ≤ s.length := List.length_pos.mpr hne
  rw [cleanLoop_segment _ s _ ['/'] 1 hs (atBoundary_rootedOf segs x hx)]
  rw [cleanLoop_rootedOf 1 segs fuel x _ h hx (by simp; omega)]
  simp [rootedOf]

/-- `Clean` leaves a rooted path of clean elements unchanged. -/
theorem Clean_rootedOf (s : List Char) (segs : List (List Char))
    (hs : isSegment s = true) (h : segs.all isSegment = true) :
    Clean (rootedOf (s :: segs)) = rootedOf (s :: segs) := by
  have hlen := length_rootedOf segs h
  have hne : s ≠ [] := by
    simp only [isSegment, Bool.and_eq_true, decide_eq_true_eq] at hs
    exact hs.1.1.1
  have hl : 1 ≤ s.length := List.length_pos.mpr hne
  obtain ⟨k, hk⟩ : ∃ k, (rootedOf (s :: segs)).length = k + 2 * segs.length + 1 := by
    refine ⟨(rootedOf (s :: segs)).length - (2 * segs.length + 1), ?_⟩
    simp only [rootedOf, List.length_cons, List.length_append]
    omega
  have hfirst := cleanLoop_first segs s k [] hs h (Or.inl rfl)
  rw [cleanLoop_nil] at hfirst
  simp only [List.append_nil] at hfirst
  have hroot : byteAt (rootedOf (s :: segs)) 0 = some '/' := by simp [rootedOf, byteAt]
  have hdrop : (rootedOf (s :: segs)).drop 1 = s ++ rootedOf segs := by simp [rootedOf]
  have hnil : rootedOf (s :: segs) ≠ [] := by simp [rootedOf]
  unfold Clean
  simp only [hnil, if_false, hroot, decide_True, if_true, hdrop, hk, hfirst]
  simp [rootedOf]

/-- `Clean` removes the doubled slash between two rooted paths of clean elements. -/
theorem Clean_rootedOf_slash_rootedOf (s : List Char) (ps rs : List (List Char))
    (hs : isSegment s = true) (hp : ps.all isSegment = true) (hr : rs.all isSegment = true) :
    Clean (rootedOf (s :: ps) ++ '/' :: rootedOf rs) = rootedOf (s :: ps) ++ rootedOf rs := by
  have hlenp := length_rootedOf ps hp
  have hlenr := length_rootedOf rs hr
  have hne : s ≠ [] := by
    simp only [isSegment, Bool.and_eq_true, decide_eq_true_eq] at hs
    exact hs.1.1.1
  have hl : 1 ≤ s.length := List.length_pos.mpr hne
  obtain ⟨k, hk⟩ : ∃ k, (rootedOf (s :: ps) ++ '/' :: rootedOf rs).length =
      ((k + 2 * rs.length) + 1) + 2 * ps.length + 1 := by
    refine ⟨(rootedOf (s :: ps) ++ '/' :: rootedOf rs).length -
      (2 * rs.length + 1 + 2 * ps.length + 1), ?_⟩
    simp only [rootedOf, List.length_cons, List.length_append]
    omega
  have hfirst := cleanLoop_first ps s ((k + 2 * rs.length) + 1) ('/' :: rootedOf rs) hs hp
    (Or.inr ⟨_, rfl⟩)
  rw [cleanLoop_slash] at hfirst
  have hsecond := cleanLoop_rootedOf 1 rs k [] (rootedOf (s :: ps)) hr (Or.inl rfl)
    (by simp only [rootedOf, List.length_cons, List.length_append]; omega)
  rw [List.append_nil, cleanLoop_nil] at hsecond
  rw [hsecond] at hfirst
  have hroot : byteAt (rootedOf (s :: ps) ++ '/' :: rootedOf rs) 0 = some '/' := by
    simp [rootedOf, byteAt]
  have hdrop : (rootedOf (s :: ps) ++ '/' :: rootedOf rs).drop 1 =
      s ++ (rootedOf ps ++ '/' :: rootedOf rs) := by simp [rootedOf]
  have hnil : rootedOf (s :: ps) ++ '/' :: rootedOf rs ≠ [] := by simp [rootedOf]
  unfold Clean
  simp only [hnil, if_false, hroot, decide_True, if_true, hdrop, hk, hfirst]
  simp [rootedOf]

/-- `Join` of two rooted paths of clean elements, the second not empty, is
their concatenation. -/
theorem Join_rootedOf (ps rs : List (List Char)) (hp : ps.all isSegment = true)
    (hr : rs.all isSegment = true) (hrs : rs ≠ []) :
    Join [rootedOf ps, rootedOf rs] = rootedOf ps ++ rootedOf rs := by
  cases rs with
  | nil => exact absurd rfl hrs
  | cons r rs =>
    simp only [List.all_cons, Bool.and_eq_true] at hr
    cases ps with
    | nil =>
      have := Clean_rootedOf r rs hr.1 hr.2
      simp [Join, joinBuf, rootedOf] at this ⊢
      exact this
    | cons p ps =>
      simp only [List.all_cons, Bool.and_eq_true] at hp
      have := Clean_rootedOf_slash_rootedOf p ps (r :: rs) hp.1 hp.2
        (by simp [List.all_cons, hr.1, hr.2])
      simp [Join, joinBuf, rootedOf] at this ⊢
      exact this

end path

/-! ## The module controller -/

namespace flow

/-- On a module without engine the construction block panics: the options
literal reads `c.f.clusterer` through the nil `c.f`. -/
theorem constructIfNil_nil (env : Env) (c : module) (w : World) (h : c.f = none) :
    constructIfNil env c w = .panicked .nilDereference := by
  simp [constructIfNil, h, Flow.clusterer]

/-- On a module with an engine the construction block does nothing. -/
theorem constructIfNil_some (env : Env) (c : module) (w : World) (fl : Flow)
    (h : c.f = some fl) : constructIfNil env c w = .returned (c, w) := by
  simp [constructIfNil, h]

/-- On a module without engine `LoadConfig` panics and changes nothing. -/
theorem LoadConfig_nil (env : Env) (c : module) (config : List Nat) (args : Args) (w : World)
    (h : c.f = none) :
    LoadConfig env c config args w = { result := .panicked .nilDereference, c := c, w := w } := by
  simp [LoadConfig, constructIfNil_nil env c w h]

/-- On a module with an engine `LoadConfig` parses and, if that succeeds, loads. -/
theorem LoadConfig_some (env : Env) (c : module) (config : List Nat) (args : Args) (w : World)
    (fl : Flow) (h : c.f = some fl) :
    LoadConfig env c config args w =
      match env.ReadFile c.o.ID config with
      | (_, some err) =>
        { result := .returned (some err), c := c,
          w := { w with calls := w.calls ++ [.ReadFile c.o.ID config] } }
      | (ff, none) =>
        { result := .returned (env.LoadFile fl.st ff args).2
          c := { c with f := some { fl with st := (env.LoadFile fl.st ff args).1 } }
          w := { w with calls := w.calls ++ [.ReadFile c.o.ID config] ++
                  [.LoadFile fl.addr ff args] } } := by
  simp only [LoadConfig, constructIfNil_some env c w fl h]
  rcases hr : env.ReadFile c.o.ID config with ⟨ff, _ | err⟩
  · simp [h]
  · simp

/-- No call of `LoadConfig` adds an engine construction to the world. -/
theorem LoadConfig_constructs_nothing (env : Env) (c : module) (config : List Nat) (args : Args)
    (w : World) :
    constructions (LoadConfig env c config args w).w.calls = constructions w.calls := by
  cases h : c.f with
  | none => rw [LoadConfig_nil env c config args w h]
  | some fl =>
    rw [LoadConfig_some env c config args w fl h]
    rcases hr : env.ReadFile c.o.ID config with ⟨ff, _ | err⟩
    · simp [constructions, List.filter_append]
    · simp [constructions, List.filter_append]

/-- No sequence of `LoadConfig` calls adds an engine construction to the world. -/
theorem LoadConfigs_constructs_nothing (env : Env) :
    ∀ (calls : List (List Nat × Args)) (c : module) (w : World),
      constructions (LoadConfigs env c w calls).2.calls = constructions w.calls
  | [], c, w => rfl
  | (config, args) :: rest, c, w => by
    simp only [LoadConfigs]
    rw [LoadConfigs_constructs_nothing env rest, LoadConfig_constructs_nothing]

/-- C1: the failing input. `LoadConfig` on the module that `newModule` creates
from the example options, with the config `[1, 2]` and no arguments, does not
complete: it panics with a nil dereference, constructs no engine (no call is
recorded, no address taken) and leaves the module without engine. -/
theorem LoadConfig_newModule_panics :
    LoadConfig exampleEnv (newModule exampleModuleOptions) [1, 2] [] exampleWorld =
      { result := .panicked .nilDereference
        c := { f := none, o := exampleModuleOptions }
        w := { nextAddr := 0, calls := [] } } := by
  decide

/-- C2: for every module that holds an engine and every config and args,
`LoadConfig` leaves the module with the engine at the same address, whether
it returns an error or not, records no construction and takes no address;
and every sequence of `LoadConfig` calls on every module records at most one
construction. -/
theorem LoadConfig_keeps_engine_instance (env : Env) (c : module) (fl : Flow)
    (h : c.f = some fl) (config : List Nat) (args : Args) (w : World) :
    (LoadConfig env c config args w).c.f.map Flow.addr = some fl.addr ∧
    constructions (LoadConfig env c config args w).w.calls = constructions w.calls ∧
    (LoadConfig env c config args w).w.nextAddr = w.nextAddr ∧
    ∀ (c' : module) (w' : World) (calls : List (List Nat × Args)),
      constructions (LoadConfigs env c' w' calls).2.calls ≤ constructions w'.calls + 1 := by
  refine ⟨?_, LoadConfig_constructs_nothing env c config args w, ?_, ?_⟩
  · rw [LoadConfig_some env c config args w fl h]
    rcases hr : env.ReadFile c.o.ID config with ⟨ff, _ | err⟩ <;> simp [h]
  · rw [LoadConfig_some env c config args w fl h]
    rcases hr : env.ReadFile c.o.ID config with ⟨ff, _ | err⟩ <;> simp
  · intro c' w' calls
    rw [LoadConfigs_constructs_nothing]; omega

/-- C2 at the example module that holds the engine at address 0, for a
config that loads. -/
theorem LoadConfig_keeps_engine_instance_witness :
    exampleLoaded.f = some { addr := 0, st := { clusterer := none, state := 0 } } ∧
    (LoadConfig exampleEnv exampleLoaded [1, 2] [] exampleWorld).c.f.map Flow.addr = some 0 ∧
    constructions (LoadConfig exampleEnv exampleLoaded [1, 2] [] exampleWorld).w.calls =
      constructions exampleWorld.calls ∧
    (LoadConfig exampleEnv exampleLoaded [1, 2] [] exampleWorld).w.nextAddr =
      exampleWorld.nextAddr ∧
    ∀ (c' : module) (w' : World) (calls : List (List Nat × Args)),
      constructions (LoadConfigs exampleEnv c' w' calls).2.calls ≤ constructions w'.calls + 1 :=
  ⟨rfl, LoadConfig_keeps_engine_instance exampleEnv exampleLoaded _ rfl [1, 2] [] exampleWorld⟩

/-- C7: for every module that holds an engine, when the parser returns an
error for the config and the id of the module, `LoadConfig` returns that
error and the only call recorded is the one of the parser (`LoadFile` is not
called); when the parser returns no error, `LoadConfig` returns what the
`LoadFile` of the engine returns for the parsed file and the args, and the
calls recorded are the parser's and that one `LoadFile`. -/
theorem LoadConfig_returns_parse_or_load_result (env : Env) (c : module) (fl : Flow)
    (h : c.f = some fl) (config : List Nat) (args : Args) (w : World) :
    (∀ err, (env.ReadFile c.o.ID config).2 = some err →
      (LoadConfig env c config args w).result = .returned (some err) ∧
      (LoadConfig env c config args w).w.calls = w.calls ++ [.ReadFile c.o.ID config]) ∧
    ((env.ReadFile c.o.ID config).2 = none →
      (LoadConfig env c config args w).result =
        .returned (env.LoadFile fl.st (env.ReadFile c.o.ID config).1 args).2 ∧
      (LoadConfig env c config args w).w.calls =
        w.calls ++ [.ReadFile c.o.ID config,
                    .LoadFile fl.addr (env.ReadFile c.o.ID config).1 args]) := by
  rw [LoadConfig_some env c config args w fl h]
  rcases hr : env.ReadFile c.o.ID config with ⟨ff, _ | err⟩ <;> simp

/-- C7 at the example module: the empty config fails to parse and the error
of the parser is returned without a `LoadFile` call; the config `[9]` parses
to file 1, on which `LoadFile` fails, and that error is returned. -/
theorem LoadConfig_returns_parse_or_load_result_witness :
    exampleLoaded.f = some { addr := 0, st := { clusterer := none, state := 0 } } ∧
    ((LoadConfig exampleEnv exampleLoaded [] [] exampleWorld).result =
        .returned (some (Errorf "empty config" [])) ∧
      (LoadConfig exampleEnv exampleLoaded [] [] exampleWorld).w.calls =
        [.ReadFile "mod" []]) ∧
    ((LoadConfig exampleEnv exampleLoaded [9] [] exampleWorld).result =
        .returned (some (Errorf "load failed" [])) ∧
      (LoadConfig exampleEnv exampleLoaded [9] [] exampleWorld).w.calls =
        [.ReadFile "mod" [9], .LoadFile 0 (some 1) []]) :=
  ⟨rfl,
    (LoadConfig_returns_parse_or_load_result exampleEnv exampleLoaded _ rfl [] []
      exampleWorld).1 _ rfl,
    (LoadConfig_returns_parse_or_load_result exampleEnv exampleLoaded _ rfl [9] []
      exampleWorld).2 rfl⟩

/-- C8: the failing input. The example options set the tracer and the
clusterer of the module; `LoadConfig` on the module that `newModule` creates
from them panics while it builds the options for the constructor, so that
the constructor is not called and no option reaches an engine. -/
theorem LoadConfig_passes_no_options :
    exampleModuleOptions.ctl.Tracer = some 2 ∧
    exampleModuleOptions.ctl.Clusterer = some 3 ∧
    (LoadConfig exampleEnv (newModule exampleModuleOptions) [1, 2] [] exampleWorld).result =
      .panicked .nilDereference ∧
    (LoadConfig exampleEnv (newModule exampleModuleOptions) [1, 2] [] exampleWorld).w.calls =
      [] ∧
    constructions
      (LoadConfig exampleEnv (newModule exampleModuleOptions) [1, 2] [] exampleWorld).w.calls =
      0 := by
  decide

/-- C3, refuted as stated: with the HTTP path `/a`, the request path
`/child1/` starts with an identifier segment and is forwarded, with the path
`/a/child1` and not with the concatenation `/a/child1/`; and the request path
`/child1//foo`, which starts with an identifier segment too, is not forwarded
at all: the router answers with a redirect to `/child1/foo`. -/
theorem ComponentHandler_path_not_concatenation :
    (matchIDPrefix "/child1/".data = true ∧
      ComponentHandler noAPIRoute exampleLoadedA { Path := "/child1/".data } =
        .component exampleLoadedA.f { Path := "/a/child1".data } ∧
      ComponentHandler noAPIRoute exampleLoadedA { Path := "/child1/".data } ≠
        .component exampleLoadedA.f
          { Path := exampleLoadedA.o.ctl.HTTPPath.data ++ "/child1/".data }) ∧
    (matchIDPrefix "/child1//foo".data = true ∧
      ComponentHandler noAPIRoute exampleLoadedA { Path := "/child1//foo".data } =
        .redirect "/child1/foo".data) := by
  decide

/-- A rooted path of clean elements does not end in a slash. -/
theorem getLast_rootedOf (s : List Char) (segs : List (List Char))
    (hs : path.isSegment s = true) (h : segs.all path.isSegment = true) :
    (path.rootedOf (s :: segs)).getLast? ≠ some '/' := by
  induction segs generalizing s with
  | nil =>
    simp only [path.isSegment, Bool.and_eq_true, decide_eq_true_eq] at hs
    obtain ⟨⟨⟨hne, hsl⟩, _⟩, _⟩ := hs
    intro hl
    have e : path.rootedOf [s] = ['/'] ++ s := by simp [path.rootedOf]
    rw [e, List.getLast?_append_of_ne_nil _ hne] at hl
    exact hsl (List.mem_of_getLast?_eq_some hl)
  | cons t rest ih =>
    simp only [List.all_cons, Bool.and_eq_true] at h
    have := ih t h.1 h.2
    intro hl
    apply this
    have e : path.rootedOf (s :: t :: rest) = ('/' :: s) ++ path.rootedOf (t :: rest) := by
      simp [path.rootedOf]
    rw [e, List.getLast?_append_of_ne_nil _ (by simp [path.rootedOf])] at hl
    exact hl

/-- A rooted path of clean elements is in the canonical form of gorilla/mux:
the router does not redirect it. -/
theorem cleanPath_rootedOf (s : List Char) (segs : List (List Char))
    (hs : path.isSegment s = true) (h : segs.all path.isSegment = true) :
    cleanPath (path.rootedOf (s :: segs)) = path.rootedOf (s :: segs) := by
  have hlast := getLast_rootedOf s segs hs h
  have hclean := path.Clean_rootedOf s segs hs h
  have hroot : path.byteAt (path.rootedOf (s :: segs)) 0 = some '/' := by
    simp [path.rootedOf, path.byteAt]
  have hnil : path.rootedOf (s :: segs) ≠ [] := by simp [path.rootedOf]
  unfold cleanPath
  simp only [hnil, if_false, hroot, ne_eq, not_true_eq_false, hclean, hlast, false_and]

/-- C3, amended: every request whose path is in the canonical form of the
router (any other path is answered with a redirect), starts with an
identifier segment, and that no route of the engine API takes first, is
forwarded to the component handler of the engine with its path set to
`path.Join` of the HTTP path of the module and the request path; when the
HTTP path is empty or a rooted path of clean elements, and the request path
is a rooted path of clean elements (so without slash at the end), that is
exactly their concatenation; and every rooted path of clean elements is in
canonical form. -/
theorem ComponentHandler_forwards_joined_path (apiRoute : Request → Bool) (c : module)
    (r : Request) (hclean : cleanPath r.Path = r.Path) (hapi : apiRoute r = false)
    (hid : matchIDPrefix r.Path = true) :
    ComponentHandler apiRoute c r =
      .component c.f { Path := path.Join [c.o.ctl.HTTPPath.data, r.Path] } ∧
    (∀ ps rs : List (List Char),
      ps.all path.isSegment = true → rs.all path.isSegment = true →
      c.o.ctl.HTTPPath.data = path.rootedOf ps → r.Path = path.rootedOf rs →
      ComponentHandler apiRoute c r =
        .component c.f { Path := c.o.ctl.HTTPPath.data ++ r.Path }) ∧
    (∀ rs : List (List Char), rs ≠ [] → rs.all path.isSegment = true →
      cleanPath (path.rootedOf rs) = path.rootedOf rs) := by
  have hfwd : ComponentHandler apiRoute c r =
      .component c.f { Path := path.Join [c.o.ctl.HTTPPath.data, r.Path] } := by
    simp [ComponentHandler, hclean, hapi, hid, forwardToComponent]
  refine ⟨hfwd, ?_, ?_⟩
  · intro ps rs hps hrs hP hr
    have hne : rs ≠ [] := by
      rintro rfl
      rw [hr] at hid
      simp [path.rootedOf, matchIDPrefix] at hid
    rw [hfwd, hP, hr, path.Join_rootedOf ps rs hps hrs hne]
  · intro rs hne hrs
    cases rs with
    | nil => exact absurd rfl hne
    | cons s segs =>
      simp only [List.all_cons, Bool.and_eq_true] at hrs
      exact cleanPath_rootedOf s segs hrs.1 hrs.2

/-- C3 at the HTTP path `/prefix` and the request path `/child1/foo`: the
request is forwarded with the path `/prefix/child1/foo`. -/
theorem ComponentHandler_forwards_joined_path_witness :
    cleanPath "/child1/foo".data = "/child1/foo".data ∧
    noAPIRoute { Path := "/child1/foo".data } = false ∧
    matchIDPrefix "/child1/foo".data = true ∧
    ComponentHandler noAPIRoute exampleLoaded { Path := "/child1/foo".data } =
      .component exampleLoaded.f { Path := "/prefix/child1/foo".data } :=
  ⟨by decide, rfl, by decide,
    (ComponentHandler_forwards_joined_path noAPIRoute exampleLoaded
      { Path := "/child1/foo".data } (by decide) rfl (by decide)).2.1
      ["prefix".data] ["child1".data, "foo".data] (by decide) (by decide) (by decide)
      (by decide)⟩

end flow
